import Mathlib

/-!
Verification of the adaptive image-enhancement pipeline in `main.py`.

The source operates on 2-D numpy arrays of 8-bit samples.  We embed an image
as a list of rows of rational pixel values (`Img`); floating-point scalars are
embedded as rationals, except the noise statistics, which involve a square
root and are embedded as real numbers.  The OpenCV filter primitives (CLAHE,
bilateral filter, non-local-means denoising, Gaussian blur) are external
collaborators whose internal numerics are out of scope; they are abstracted
as fields of a `Filters` structure.  Everything the source itself computes
(numpy slicing, percentiles, standard deviation, the Laplacian, the parameter
policy, the stage sequencing, the per-file control flow) is embedded
explicitly below.
-/

namespace AdaptivePipeline

/-- A grayscale image: a list of rows of rational intensity samples
(`img.pixel_array` after normalization in `load_dicom_file`). -/
abbrev Img : Type := List (List ℚ)

/-- Number of columns (`img.shape[1]`); numpy arrays are rectangular, so the
first row's length is the width. -/
def width (img : Img) : ℕ := (img.headD []).length

/-- Rectangularity: every row has the same length, as numpy guarantees. -/
def Rect (img : Img) : Prop := ∀ r ∈ img, r.length = width img

/-- A constant-valued `h × w` image. -/
def constImg (h w : ℕ) (c : ℚ) : Img := List.replicate h (List.replicate w c)

/-! ### numpy basic-slicing semantics

`l[a:b]` resolves a negative endpoint by adding the length, then clips both
endpoints into `[0, n]`; the slice is always in bounds and may be empty or
shorter than requested, but never raises. -/

/-- Resolution of one slice endpoint, numpy basic-slicing rules. -/
def npIdx (n : ℕ) (i : ℤ) : ℕ :=
  (max 0 (min (if i < 0 then i + n else i) (n : ℤ))).toNat

/-- `l[a:b]` for a 1-D array. -/
def npSlice (a b : ℤ) (l : List α) : List α :=
  (l.drop (npIdx l.length a)).take (npIdx l.length b - npIdx l.length a)

/-- `img[r1:r2, c1:c2]` for a 2-D array. -/
def npSlice2 (r1 r2 c1 c2 : ℤ) (img : Img) : Img :=
  (npSlice r1 r2 img).map (npSlice c1 c2)

/-! ### Statistics used by the metric estimator -/

/-- `np.mean` of a 1-D array. -/
def mean (l : List ℚ) : ℚ := l.sum / l.length

/-- `np.var`: population variance (mean squared deviation). -/
def variance (l : List ℚ) : ℚ := (l.map (fun x => (x - mean l) ^ 2)).sum / l.length

/-- `np.std` of a (flattened) patch: square root of the population variance. -/
noncomputable def npStd (p : Img) : ℝ := Real.sqrt ((variance p.flatten : ℚ) : ℝ)

/-- `np.percentile(l, q)` with the default linear interpolation: sort the
values, take the virtual index `k = (n-1)·q/100` and interpolate linearly
between the neighbouring order statistics. -/
def percentileQ (q : ℚ) (l : List ℚ) : ℚ :=
  let s := List.insertionSort (· ≤ ·) l
  let k : ℚ := ((l.length : ℚ) - 1) * q / 100
  let f : ℕ := (Int.floor k).toNat
  let d0 := s.getD f 0
  d0 + (k - (f : ℚ)) * (s.getD (f + 1) d0 - d0)

/-! ### Metric estimator (lines 42–58 of `main.py`) -/

/-- `contrast = np.percentile(img, 99) - np.percentile(img, 1)`. -/
def contrast (img : Img) : ℚ := percentileQ 99 img.flatten - percentileQ 1 img.flatten

/-- `cv2.BORDER_REFLECT_101` index reflection (the default border of
`cv2.Laplacian`), adequate for the one-pixel border the 3×3 kernel needs. -/
def reflect101 (n : ℕ) (i : ℤ) : ℕ :=
  if i < 0 then (-i).toNat else if (n : ℤ) ≤ i then (2 * n - 2 - i).toNat else i.toNat

/-- Pixel access with reflected border. -/
def pixAt (img : Img) (r c : ℤ) : ℚ :=
  (img.getD (reflect101 img.length r) []).getD (reflect101 (width img) c) 0

/-- One response of the discrete Laplacian kernel `[[0,1,0],[1,-4,1],[0,1,0]]`
(`cv2.Laplacian(img, cv2.CV_64F)`, default aperture). -/
def lapAt (img : Img) (r c : ℕ) : ℚ :=
  pixAt img ((r : ℤ) - 1) c + pixAt img ((r : ℤ) + 1) c +
    pixAt img r ((c : ℤ) - 1) + pixAt img r ((c : ℤ) + 1) - 4 * pixAt img r c

/-- All Laplacian responses of the image, row-major. -/
def lapValues (img : Img) : List ℚ :=
  ((List.range img.length).map
    (fun r => (List.range (width img)).map (fun c => lapAt img r c))).flatten

/-- `sharpness = cv2.Laplacian(img, cv2.CV_64F).var()`. -/
def sharpness (img : Img) : ℚ := variance (lapValues img)

/-- `patch_size = 40`. -/
def patch_size : ℕ := 40

/-- The eight noise-sampling patches, exactly as sliced in lines 48–57 of
`main.py` (numpy slicing semantics, with Python's `//` floor division). -/
def patches (img : Img) : List Img :=
  [ npSlice2 0 patch_size 0 patch_size img,
    npSlice2 0 patch_size ((width img : ℤ) - patch_size) (width img) img,
    npSlice2 ((img.length : ℤ) - patch_size) img.length 0 patch_size img,
    npSlice2 ((img.length : ℤ) - patch_size) img.length
      ((width img : ℤ) - patch_size) (width img) img,
    npSlice2 ((img.length / 2 : ℕ) - (patch_size / 2 : ℕ) : ℤ)
      ((img.length / 2 : ℕ) + (patch_size / 2 : ℕ) : ℤ) 0 patch_size img,
    npSlice2 ((img.length / 2 : ℕ) - (patch_size / 2 : ℕ) : ℤ)
      ((img.length / 2 : ℕ) + (patch_size / 2 : ℕ) : ℤ)
      ((width img : ℤ) - patch_size) (width img) img,
    npSlice2 0 patch_size ((width img / 2 : ℕ) - (patch_size / 2 : ℕ) : ℤ)
      ((width img / 2 : ℕ) + (patch_size / 2 : ℕ) : ℤ) img,
    npSlice2 ((img.length : ℤ) - patch_size) img.length
      ((width img / 2 : ℕ) - (patch_size / 2 : ℕ) : ℤ)
      ((width img / 2 : ℕ) + (patch_size / 2 : ℕ) : ℤ) img ]

/-- `noise_level = np.mean([np.std(p) for p in patches])`. -/
noncomputable def noise_level (img : Img) : ℝ :=
  ((patches img).map npStd).sum / 8

/-! ### Parameter policy (lines 61, 69, 78–85 of `main.py`) -/

/-- `np.clip(x, lo, hi)` on rationals. -/
def npclip (x lo hi : ℚ) : ℚ := min (max x lo) hi

/-- `np.clip(x, lo, hi)` on reals. -/
noncomputable def npclipR (x lo hi : ℝ) : ℝ := min (max x lo) hi

/-- `clahe_clip = np.clip(contrast / 40, 1.0, 3.0)`. -/
def clahe_clip (contrast : ℚ) : ℚ := npclip (contrast / 40) 1 3

/-- `denoise_strength = np.clip(noise_level * 0.6, 5, 15)`. -/
noncomputable def denoise_strength (noiseLevel : ℝ) : ℝ :=
  npclipR (noiseLevel * (3 / 5)) 5 15

/-- The sharpening-strength cascade of lines 78–85. -/
def sharpen_strength (sharpness : ℚ) : ℚ :=
  if sharpness < 20 then 2
  else if sharpness < 80 then 17 / 10
  else if 300 < sharpness then 7 / 10
  else 11 / 10

/-! ### Pipeline executor (lines 39, 62–88 of `main.py`) -/

/-- The external OpenCV filter primitives, abstracted: their internal
numerics are out of scope, only the parameters passed to them and the order
of the calls are part of the source under verification. -/
structure Filters where
  clahe : ℚ → ℕ × ℕ → Img → Img
  bilateral : ℕ → ℚ → ℚ → Img → Img
  nlm : ℝ → ℕ → ℕ → Img → Img
  gaussianBlur : ℕ × ℕ → ℚ → Img → Img

/-- `np.clip(img, 0, 255).astype(np.uint8)` (the input samples are already
8-bit integers, so the cast itself changes no value). -/
def clip255 (img : Img) : Img := img.map (List.map (fun x => min (max x 0) 255))

/-- `cv2.addWeighted(a, alpha, b, beta, gamma)`: the per-pixel weighted sum,
the defining formula of the external blend primitive. -/
def addWeighted (a : Img) (alpha : ℚ) (b : Img) (beta gamma : ℚ) : Img :=
  List.zipWith (fun ra rb => List.zipWith (fun x y => alpha * x + beta * y + gamma) ra rb) a b

/-- Trivial instantiation of the external filters (each primitive returns its
input unchanged), used to run the model on concrete inputs. -/
def idFilters : Filters :=
  ⟨fun _ _ i => i, fun _ _ _ i => i, fun _ _ _ i => i, fun _ _ i => i⟩

/-- `adaptive_preprocessing` (lines 33–94 of `main.py`).  The source wraps the
body in `try/except` and returns `None` on any exception; over well-formed
2-D inputs the only failing operation is `np.percentile` on an empty array,
so the model yields `none` exactly when the image has no pixels.  The
metrics are computed on the clipped image, as in the source (line 39
reassigns `img` before the estimation). -/
noncomputable def adaptive_preprocessing (F : Filters) (img : Img) : Option Img :=
  let i := clip255 img
  if img.length = 0 ∨ width img = 0 then none
  else
    let c := contrast i
    let s := sharpness i
    let nl := noise_level i
    let img_clahe := F.clahe (clahe_clip c) (8, 8) i
    let img_bilateral := F.bilateral 9 75 75 img_clahe
    let img_denoised := F.nlm (denoise_strength nl) 7 21 img_bilateral
    let strength := sharpen_strength s
    let gaussian := F.gaussianBlur (5, 5) (6 / 5) img_denoised
    some (addWeighted img_denoised strength gaussian (-(strength - 1)) 0)

/-! ### Per-file control flow (`process_file` and the `__main__` loop) -/

/-- The observable outcome of `process_file` on one file. -/
inductive FileOutcome : Type
  | loadFailed : FileOutcome
  | preprocessFailed : FileOutcome
  | written : String → Img → FileOutcome
  | writeFailed : String → Img → FileOutcome

/-- The external collaborators of the control flow: `load_dicom_file`
(returns `None` on any decode failure), `cv2.imwrite` success, the
`os.path.exists` check of the main loop, and the output-file naming
(`os.path.splitext(p)[0] + "_processed.png"`, out of scope per the design). -/
structure Env : Type where
  decode : String → Option Img
  writeOk : String → Img → Bool
  found : String → Bool
  outPath : String → String

/-- `process_file` (lines 96–113 of `main.py`): early-return on decode
failure, early-return on preprocessing failure, otherwise one write attempt
whose own failure is caught. -/
noncomputable def process_file (E : Env) (F : Filters) (p : String) : FileOutcome :=
  match E.decode p with
  | none => FileOutcome.loadFailed
  | some img =>
    match adaptive_preprocessing F img with
    | none => FileOutcome.preprocessFailed
    | some result =>
      if E.writeOk (E.outPath p) result then FileOutcome.written (E.outPath p) result
      else FileOutcome.writeFailed (E.outPath p) result

/-- Whether an outcome includes a write attempt. -/
def attemptsWrite : FileOutcome → Bool
  | FileOutcome.written _ _ => true
  | FileOutcome.writeFailed _ _ => true
  | _ => false

/-- One iteration of the `__main__` loop: missing files are skipped
(`none`), present files are processed. -/
noncomputable def batchStep (E : Env) (F : Filters) (p : String) : Option FileOutcome :=
  if E.found p then some (process_file E F p) else none

/-- The `__main__` batch loop: each file is processed independently. -/
noncomputable def runBatch (E : Env) (F : Filters) (files : List String) :
    List (String × Option FileOutcome) :=
  files.map (fun p => (p, batchStep E F p))

/-- The shape of an image: its list of row lengths (the list's length is the
height; for a rectangular image every entry is the width). -/
def dims (img : Img) : List ℕ := img.map (fun r => r.length)

/-- A concrete 40×40 test image. -/
def c40 : Img := constImg 40 40 0

/-- The output the pipeline produces on `c40` under the trivial filters
(each abstract stage is the identity, so the denoised and blurred inputs of
the final blend are both the clipped image). -/
def demoOut : Img :=
  addWeighted (clip255 c40) (sharpen_strength (sharpness (clip255 c40)))
    (clip255 c40) (-(sharpen_strength (sharpness (clip255 c40)) - 1)) 0

/-- The output the pipeline produces on `constImg 1 1 0` under the trivial
filters. -/
def demoOut1 : Img :=
  addWeighted (clip255 (constImg 1 1 0))
    (sharpen_strength (sharpness (clip255 (constImg 1 1 0))))
    (clip255 (constImg 1 1 0))
    (-(sharpen_strength (sharpness (clip255 (constImg 1 1 0))) - 1)) 0

/-- A concrete batch environment: the file `bad.dcm` is malformed (decode
yields nothing), every other file decodes to a 1×1 image, every write
succeeds, every file is present on disk. -/
def envDemo : Env :=
  ⟨fun s => if s = "bad.dcm" then none else some (constImg 1 1 0),
    fun _ _ => true, fun _ => true, fun s => s ++ "_processed.png"⟩

/-! ### Spec-side definitions, for refinement claims

These follow the wording of the design document, to be compared with the
definitions translated from the source. -/

/-- The eight noise patches as the spec words them: the four 40×40 corners,
the vertical midpoints of the left/right edges and the horizontal midpoints
of the top/bottom edges, centred by integer floor division. -/
def specPatches (img : Img) : List Img :=
  [ (img.take 40).map (fun r => r.take 40),
    (img.take 40).map (fun r => (r.drop (width img - 40)).take 40),
    ((img.drop (img.length - 40)).take 40).map (fun r => r.take 40),
    ((img.drop (img.length - 40)).take 40).map (fun r => (r.drop (width img - 40)).take 40),
    ((img.drop (img.length / 2 - 20)).take 40).map (fun r => r.take 40),
    ((img.drop (img.length / 2 - 20)).take 40).map (fun r => (r.drop (width img - 40)).take 40),
    (img.take 40).map (fun r => (r.drop (width img / 2 - 20)).take 40),
    ((img.drop (img.length - 40)).take 40).map (fun r => (r.drop (width img / 2 - 20)).take 40) ]

/-- Spec stage 1: clip every sample to `[0, 255]`. -/
def specStage1 (img : Img) : Img := clip255 img

/-- Spec stage 2: CLAHE with the computed clip limit and the fixed 8×8 tile
grid. -/
def specStage2 (F : Filters) (claheClip : ℚ) (img : Img) : Img :=
  F.clahe claheClip (8, 8) img

/-- Spec stage 3: bilateral filter with fixed diameter 9 and sigmas 75/75. -/
def specStage3 (F : Filters) (img : Img) : Img := F.bilateral 9 75 75 img

/-- Spec stage 4: non-local-means denoising with the computed strength and
fixed windows 7/21. -/
def specStage4 (F : Filters) (denoiseStrength : ℝ) (img : Img) : Img :=
  F.nlm denoiseStrength 7 21 img

/-- Spec stage 5: Gaussian-blur the denoised image (5×5 kernel, sigma 1.2)
and blend: `output = denoised * sharpenStrength + blurred * (1 - sharpenStrength)`. -/
def specStage5 (F : Filters) (sharpenStrength : ℚ) (denoised : Img) : Img :=
  List.zipWith
    (List.zipWith (fun x y => sharpenStrength * x + (1 - sharpenStrength) * y))
    denoised (F.gaussianBlur (5, 5) (6 / 5) denoised)

/-! ### Helper lemmas -/

theorem getD_replicate_lt {α : Type} (c d : α) {m j : ℕ} (h : j < m) :
    (List.replicate m c).getD j d = c := by
  induction m generalizing j with
  | zero => omega
  | succ n ih =>
    cases j with
    | zero => rfl
    | succ j2 => simpa [List.replicate_succ] using ih (by omega)

theorem insertionSort_replicate (m : ℕ) (c : ℚ) :
    List.insertionSort (· ≤ ·) (List.replicate m c) = List.replicate m c := by
  have hp := List.perm_insertionSort (fun x y : ℚ => x ≤ y) (List.replicate m c)
  rw [List.eq_replicate_iff]
  exact ⟨by simpa using hp.length_eq,
    fun b hb => List.eq_of_mem_replicate (hp.mem_iff.mp hb)⟩

theorem percentileQ_replicate (q : ℚ) (hq0 : 0 ≤ q) (hq1 : q ≤ 100) (m : ℕ)
    (hm : 0 < m) (c : ℚ) : percentileQ q (List.replicate m c) = c := by
  unfold percentileQ
  simp only [insertionSort_replicate, List.length_replicate]
  have hm1 : (1 : ℚ) ≤ (m : ℚ) := by exact_mod_cast hm
  have hkm : ((m : ℚ) - 1) * q / 100 ≤ (m : ℚ) - 1 := by
    rw [div_le_iff (by norm_num : (0 : ℚ) < 100)]
    have := mul_le_mul_of_nonneg_left hq1 (by linarith : (0 : ℚ) ≤ (m : ℚ) - 1)
    linarith
  have hfloor : (Int.floor (((m : ℚ) - 1) * q / 100)).toNat < m := by
    have h1 : Int.floor (((m : ℚ) - 1) * q / 100) ≤ Int.floor ((m : ℚ) - 1) :=
      Int.floor_mono hkm
    have h2 : Int.floor ((m : ℚ) - 1) = (m : ℤ) - 1 := by
      rw [show ((m : ℚ) - 1) = (((m : ℤ) - 1 : ℤ) : ℚ) by push_cast; ring, Int.floor_intCast]
    rw [h2] at h1
    omega
  rw [getD_replicate_lt _ _ hfloor]
  rcases lt_or_le ((Int.floor (((m : ℚ) - 1) * q / 100)).toNat + 1) m with h | h
  · rw [getD_replicate_lt _ _ h]; ring
  · rw [List.getD_eq_default _ _ (by simpa using h)]; ring

theorem flatten_replicate_replicate (h w : ℕ) (c : ℚ) :
    (List.replicate h (List.replicate w c)).flatten = List.replicate (h * w) c := by
  induction h with
  | zero => simp
  | succ n ih =>
    rw [List.replicate_succ, List.flatten_cons, ih,
      show (n + 1) * w = w + n * w by ring, List.replicate_add]

/-! ### Claim theorems -/

/-- C2: for every non-negative sharpness value, `sharpen_strength` is the
piecewise map `<20 → 2.0`, `[20,80) → 1.7`, `>300 → 0.7`, `[80,300] → 1.1`,
and the boundary inputs `19.99, 20.0, 79.99, 80.0, 300.0, 300.01` map to
`2.0, 1.7, 1.7, 1.1, 1.1, 0.7` respectively. -/
theorem sharpen_strength_piecewise (s : ℚ) (hs : 0 ≤ s) :
    ((s < 20 → sharpen_strength s = 2) ∧
      (20 ≤ s → s < 80 → sharpen_strength s = 17 / 10) ∧
      (300 < s → sharpen_strength s = 7 / 10) ∧
      (80 ≤ s → s ≤ 300 → sharpen_strength s = 11 / 10)) ∧
    (sharpen_strength (1999 / 100) = 2 ∧ sharpen_strength 20 = 17 / 10 ∧
      sharpen_strength (7999 / 100) = 17 / 10 ∧ sharpen_strength 80 = 11 / 10 ∧
      sharpen_strength 300 = 11 / 10 ∧ sharpen_strength (30001 / 100) = 7 / 10) := by
  constructor
  · refine ⟨fun h1 => ?_, fun h1 h2 => ?_, fun h1 => ?_, fun h1 h2 => ?_⟩ <;>
      unfold sharpen_strength
    · rw [if_pos h1]
    · rw [if_neg (not_lt.mpr h1), if_pos h2]
    · rw [if_neg (by linarith), if_neg (by linarith), if_pos h1]
    · rw [if_neg (by linarith), if_neg (by linarith), if_neg (not_lt.mpr h2)]
  · refine ⟨?_, ?_, ?_, ?_, ?_, ?_⟩ <;> unfold sharpen_strength
    · rw [if_pos (by norm_num : (1999 / 100 : ℚ) < 20)]
    · rw [if_neg (by norm_num : ¬(20 : ℚ) < 20), if_pos (by norm_num : (20 : ℚ) < 80)]
    · rw [if_neg (by norm_num : ¬(7999 / 100 : ℚ) < 20),
        if_pos (by norm_num : (7999 / 100 : ℚ) < 80)]
    · rw [if_neg (by norm_num : ¬(80 : ℚ) < 20), if_neg (by norm_num : ¬(80 : ℚ) < 80),
        if_neg (by norm_num : ¬(300 : ℚ) < 80)]
    · rw [if_neg (by norm_num : ¬(300 : ℚ) < 20), if_neg (by norm_num : ¬(300 : ℚ) < 80),
        if_neg (by norm_num : ¬(300 : ℚ) < 300)]
    · rw [if_neg (by norm_num : ¬(30001 / 100 : ℚ) < 20),
        if_neg (by norm_num : ¬(30001 / 100 : ℚ) < 80),
        if_pos (by norm_num : (300 : ℚ) < 30001 / 100)]

/-- Witness for C2 at the concrete sharpness value `0`. -/
theorem sharpen_strength_piecewise_witness :
    (0 : ℚ) ≤ 0 ∧
    ((((0 : ℚ) < 20 → sharpen_strength 0 = 2) ∧
      (20 ≤ (0 : ℚ) → (0 : ℚ) < 80 → sharpen_strength 0 = 17 / 10) ∧
      (300 < (0 : ℚ) → sharpen_strength 0 = 7 / 10) ∧
      (80 ≤ (0 : ℚ) → (0 : ℚ) ≤ 300 → sharpen_strength 0 = 11 / 10)) ∧
    (sharpen_strength (1999 / 100) = 2 ∧ sharpen_strength 20 = 17 / 10 ∧
      sharpen_strength (7999 / 100) = 17 / 10 ∧ sharpen_strength 80 = 11 / 10 ∧
      sharpen_strength 300 = 11 / 10 ∧ sharpen_strength (30001 / 100) = 7 / 10)) :=
  ⟨le_refl 0, sharpen_strength_piecewise 0 (le_refl 0)⟩

/-- C5: for every non-negative contrast, `clahe_clip` is
`clamp(contrast / 40, 1.0, 3.0)`, always lies in `[1, 3]`, and maps `0 ↦ 1`
and `1000 ↦ 3`. -/
theorem clahe_clip_spec (c : ℚ) (hc : 0 ≤ c) :
    clahe_clip c = min (max (c / 40) 1) 3 ∧
    1 ≤ clahe_clip c ∧ clahe_clip c ≤ 3 ∧
    clahe_clip 0 = 1 ∧ clahe_clip 1000 = 3 := by
  refine ⟨rfl, ?_, ?_, ?_, ?_⟩
  · exact le_min (le_max_right _ _) (by norm_num)
  · exact min_le_right _ _
  · unfold clahe_clip npclip
    norm_num
  · unfold clahe_clip npclip
    rw [show (1000 : ℚ) / 40 = 25 by norm_num,
      max_eq_left (by norm_num : (1 : ℚ) ≤ 25), min_eq_right (by norm_num : (3 : ℚ) ≤ 25)]

/-- Witness for C5 at the concrete contrast value `0`. -/
theorem clahe_clip_spec_witness :
    (0 : ℚ) ≤ 0 ∧
    (clahe_clip 0 = min (max ((0 : ℚ) / 40) 1) 3 ∧
      1 ≤ clahe_clip 0 ∧ clahe_clip 0 ≤ 3 ∧
      clahe_clip 0 = 1 ∧ clahe_clip 1000 = 3) :=
  ⟨le_refl 0, clahe_clip_spec 0 (le_refl 0)⟩

theorem npSlice_subset {α : Type} (a b : ℤ) (l : List α) : npSlice a b l ⊆ l := by
  intro x hx
  exact (List.drop_sublist _ _).subset ((List.take_sublist _ _).subset hx)

theorem variance_eq_zero_of_const {l : List ℚ} {c : ℚ} (h : ∀ x ∈ l, x = c) :
    variance l = 0 := by
  rcases eq_or_ne l [] with rfl | hne
  · simp [variance]
  · have hlen : l.length ≠ 0 := by simpa using hne
    have hmean : mean l = c := by
      unfold mean
      rw [List.sum_eq_card_nsmul l c h, nsmul_eq_mul]
      field_simp
    unfold variance
    rw [List.sum_eq_zero, zero_div]
    intro x hx
    rw [List.mem_map] at hx
    obtain ⟨y, hy, rfl⟩ := hx
    rw [h y hy, hmean, sub_self]
    ring

theorem npStd_eq_zero_of_const {p : Img} {c : ℚ} (h : ∀ x ∈ p.flatten, x = c) :
    npStd p = 0 := by
  unfold npStd
  rw [variance_eq_zero_of_const h]
  simp

theorem npSlice2_mem {r1 r2 c1 c2 : ℤ} {img : Img} {row : List ℚ}
    (h : row ∈ npSlice2 r1 r2 c1 c2 img) : ∃ r ∈ img, row = npSlice c1 c2 r := by
  unfold npSlice2 at h
  rw [List.mem_map] at h
  obtain ⟨r, hr, rfl⟩ := h
  exact ⟨r, npSlice_subset _ _ _ hr, rfl⟩

theorem patch_shape {img : Img} {p : Img} (hp : p ∈ patches img) :
    ∃ r1 r2 c1 c2 : ℤ, p = npSlice2 r1 r2 c1 c2 img := by
  unfold patches at hp
  simp only [List.mem_cons, List.not_mem_nil, or_false] at hp
  rcases hp with rfl | rfl | rfl | rfl | rfl | rfl | rfl | rfl <;> exact ⟨_, _, _, _, rfl⟩

theorem noise_level_const (h w : ℕ) (c : ℚ) : noise_level (constImg h w c) = 0 := by
  unfold noise_level
  rw [List.sum_eq_zero, zero_div]
  intro x hx
  rw [List.mem_map] at hx
  obtain ⟨p, hp, rfl⟩ := hx
  obtain ⟨r1, r2, c1, c2, rfl⟩ := patch_shape hp
  apply npStd_eq_zero_of_const (c := c)
  intro y hy
  rw [List.mem_flatten] at hy
  obtain ⟨row, hrow, hyrow⟩ := hy
  obtain ⟨r, hr, rfl⟩ := npSlice2_mem hrow
  have hmem : y ∈ r := npSlice_subset _ _ _ hyrow
  rw [List.eq_of_mem_replicate hr] at hmem
  exact List.eq_of_mem_replicate hmem

/-- C6: for every non-negative noise level, `denoise_strength` is
`clamp(noiseLevel · 0.6, 5.0, 15.0)` and always lies in `[5, 15]`; a
constant-valued image has estimated noise level `0`, hence denoise
strength `5.0`. -/
theorem denoise_strength_spec (n : ℝ) (hn : 0 ≤ n) (h w : ℕ) (c : ℚ)
    (hh : 40 ≤ h) (hw : 40 ≤ w) :
    denoise_strength n = min (max (n * (3 / 5)) 5) 15 ∧
    5 ≤ denoise_strength n ∧ denoise_strength n ≤ 15 ∧
    noise_level (constImg h w c) = 0 ∧
    denoise_strength (noise_level (constImg h w c)) = 5 := by
  refine ⟨rfl, le_min (le_max_right _ _) (by norm_num), min_le_right _ _,
    noise_level_const h w c, ?_⟩
  rw [noise_level_const h w c]
  unfold denoise_strength npclipR
  rw [zero_mul, max_eq_right (by norm_num : (0 : ℝ) ≤ 5),
    min_eq_left (by norm_num : (5 : ℝ) ≤ 15)]

/-- Witness for C6 at noise level `0` and the constant image `constImg 40 40 0`. -/
theorem denoise_strength_spec_witness :
    (0 : ℝ) ≤ 0 ∧ 40 ≤ 40 ∧
    (denoise_strength 0 = min (max ((0 : ℝ) * (3 / 5)) 5) 15 ∧
      5 ≤ denoise_strength 0 ∧ denoise_strength 0 ≤ 15 ∧
      noise_level (constImg 40 40 0) = 0 ∧
      denoise_strength (noise_level (constImg 40 40 0)) = 5) :=
  ⟨le_refl 0, le_refl 40,
    denoise_strength_spec 0 (le_refl 0) 40 40 0 (le_refl 40) (le_refl 40)⟩

/-- C7: the contrast metric is the 99th percentile of all pixel intensities
minus the 1st percentile, and a constant-valued image has contrast `0`. -/
theorem contrast_spec (img : Img) (h w : ℕ) (c : ℚ) (hh : 0 < h) (hw : 0 < w) :
    contrast img = percentileQ 99 img.flatten - percentileQ 1 img.flatten ∧
    contrast (constImg h w c) = 0 := by
  refine ⟨rfl, ?_⟩
  unfold contrast constImg
  rw [flatten_replicate_replicate,
    percentileQ_replicate 99 (by norm_num) (by norm_num) _ (Nat.mul_pos hh hw) c,
    percentileQ_replicate 1 (by norm_num) (by norm_num) _ (Nat.mul_pos hh hw) c,
    sub_self]

/-- C1, code behavior at a failing input: on a 30×30 image (smaller than
40×40 in both dimensions) the pipeline does not refuse — it returns an
enhanced image — and the eight noise patches are silently truncated or
relocated by numpy slicing instead of being 40×40: their actual
`(rows, cols)` shapes are listed. -/
theorem small_image_not_refused :
    adaptive_preprocessing idFilters (constImg 30 30 0) ≠ none ∧
    (patches (constImg 30 30 (0 : ℚ))).map (fun p => (p.length, width p)) =
      [(30, 30), (30, 10), (10, 30), (10, 10), (5, 30), (5, 10), (30, 5), (10, 5)] := by
  constructor
  · have hcond : ¬((constImg 30 30 (0 : ℚ)).length = 0 ∨ width (constImg 30 30 (0 : ℚ)) = 0) := by
      decide
    simp only [adaptive_preprocessing, if_neg hcond]
    exact Option.some_ne_none _
  · decide

/-- Witness for C7 at the concrete constant image `constImg 2 3 7`. -/
theorem contrast_spec_witness :
    0 < 2 ∧ 0 < 3 ∧
    (contrast (constImg 2 3 7) =
        percentileQ 99 (constImg 2 3 7).flatten - percentileQ 1 (constImg 2 3 7).flatten ∧
      contrast (constImg 2 3 7) = 0) :=
  ⟨by norm_num, by norm_num, contrast_spec (constImg 2 3 7) 2 3 7 (by norm_num) (by norm_num)⟩

/-- C4: on every non-empty image the pipeline is exactly the five spec
stages in fixed order — clip, CLAHE (computed clip limit, 8×8 tiles),
bilateral (9, 75, 75), non-local-means (computed strength, 7/21), adaptive
sharpening — each stage's output being the next stage's only input, and the
final stage blends `denoised * strength + blurred * (1 - strength)` with the
blurred image a 5×5 sigma-1.2 Gaussian blur of the denoised image. -/
theorem pipeline_stages (F : Filters) (img : Img)
    (h1 : img.length ≠ 0) (h2 : width img ≠ 0) :
    adaptive_preprocessing F img =
      some (specStage5 F (sharpen_strength (sharpness (clip255 img)))
        (specStage4 F (denoise_strength (noise_level (clip255 img)))
          (specStage3 F
            (specStage2 F (clahe_clip (contrast (clip255 img))) (specStage1 img))))) := by
  have hcond : ¬(img.length = 0 ∨ width img = 0) := by push_neg; exact ⟨h1, h2⟩
  simp only [adaptive_preprocessing, if_neg hcond]
  unfold specStage5 specStage4 specStage3 specStage2 specStage1 addWeighted
  congr 1
  rw [show (fun x y : ℚ =>
      sharpen_strength (sharpness (clip255 img)) * x +
        -(sharpen_strength (sharpness (clip255 img)) - 1) * y + 0) =
      fun x y : ℚ =>
        sharpen_strength (sharpness (clip255 img)) * x +
          (1 - sharpen_strength (sharpness (clip255 img))) * y
    from by funext x y; ring]

/-- Witness for C4 at the trivial filters and the concrete image
`constImg 1 1 0`. -/
theorem pipeline_stages_witness :
    (constImg 1 1 (0 : ℚ)).length ≠ 0 ∧ width (constImg 1 1 (0 : ℚ)) ≠ 0 ∧
    adaptive_preprocessing idFilters (constImg 1 1 0) =
      some (specStage5 idFilters (sharpen_strength (sharpness (clip255 (constImg 1 1 0))))
        (specStage4 idFilters (denoise_strength (noise_level (clip255 (constImg 1 1 0))))
          (specStage3 idFilters
            (specStage2 idFilters (clahe_clip (contrast (clip255 (constImg 1 1 0))))
              (specStage1 (constImg 1 1 0)))))) :=
  ⟨by decide, by decide, pipeline_stages idFilters (constImg 1 1 0) (by decide) (by decide)⟩

theorem npIdx_nonneg_eq (n : ℕ) (i : ℤ) (h0 : 0 ≤ i) (hn : i ≤ (n : ℤ)) :
    npIdx n i = i.toNat := by
  unfold npIdx
  rw [if_neg (by omega)]
  omega

theorem npSlice_ps_start {α : Type} (l : List α) (h : 40 ≤ l.length) :
    npSlice 0 (patch_size : ℤ) l = l.take 40 := by
  simp only [patch_size]
  unfold npSlice
  rw [npIdx_nonneg_eq l.length 0 (by omega) (by omega),
    npIdx_nonneg_eq l.length ((40 : ℕ) : ℤ) (by omega) (by omega)]
  have e1 : ((0 : ℤ)).toNat = 0 := rfl
  have e2 : (((40 : ℕ) : ℤ)).toNat = 40 := by omega
  rw [e1, e2, List.drop_zero, Nat.sub_zero]

theorem npSlice_ps_end {α : Type} (n : ℕ) (l : List α) (hl : l.length = n) (h : 40 ≤ n) :
    npSlice ((n : ℤ) - (patch_size : ℤ)) (n : ℤ) l = (l.drop (n - 40)).take 40 := by
  simp only [patch_size]
  unfold npSlice
  rw [npIdx_nonneg_eq l.length ((n : ℤ) - ((40 : ℕ) : ℤ)) (by omega) (by omega),
    npIdx_nonneg_eq l.length ((n : ℕ) : ℤ) (by omega) (by omega)]
  have e1 : ((n : ℤ) - ((40 : ℕ) : ℤ)).toNat = n - 40 := by omega
  have e2 : (((n : ℕ) : ℤ)).toNat = n := by omega
  rw [e1, e2]
  congr 1
  omega

theorem npSlice_ps_mid {α : Type} (n : ℕ) (l : List α) (hl : l.length = n) (h : 40 ≤ n) :
    npSlice (((n / 2 : ℕ) : ℤ) - ((patch_size / 2 : ℕ) : ℤ))
      (((n / 2 : ℕ) : ℤ) + ((patch_size / 2 : ℕ) : ℤ)) l =
      (l.drop (n / 2 - 20)).take 40 := by
  simp only [patch_size]
  unfold npSlice
  rw [npIdx_nonneg_eq l.length (((n / 2 : ℕ) : ℤ) - ((40 / 2 : ℕ) : ℤ)) (by omega) (by omega),
    npIdx_nonneg_eq l.length (((n / 2 : ℕ) : ℤ) + ((40 / 2 : ℕ) : ℤ)) (by omega) (by omega)]
  have e1 : ((((n / 2 : ℕ) : ℤ) - ((40 / 2 : ℕ) : ℤ))).toNat = n / 2 - 20 := by omega
  have e2 : ((((n / 2 : ℕ) : ℤ) + ((40 / 2 : ℕ) : ℤ))).toNat = n / 2 + 20 := by omega
  rw [e1, e2]
  congr 1
  omega

theorem mem_of_mem_drop_take {α : Type} {r : α} {l : List α} {a b : ℕ}
    (h : r ∈ (l.drop a).take b) : r ∈ l :=
  (List.drop_sublist _ _).subset ((List.take_sublist _ _).subset h)

/-- C3: for every image with `height ≥ 40` and `width ≥ 40`, the patch list
sliced by the code equals the spec's eight placements (corners plus edge
midpoints, floor-division centering), so the noise level is the mean of the
standard deviations of exactly those eight patches. -/
theorem noise_level_patches_spec (img : Img) (hR : Rect img)
    (hh : 40 ≤ img.length) (hw : 40 ≤ width img) :
    patches img = specPatches img ∧
    noise_level img = ((specPatches img).map npStd).sum / 8 := by
  have e1 : (npSlice 0 (patch_size : ℤ) img).map (npSlice 0 (patch_size : ℤ)) =
      (img.take 40).map (fun r => r.take 40) := by
    rw [npSlice_ps_start img hh]
    apply List.map_congr_left
    intro r hr
    exact npSlice_ps_start r (by rw [hR r ((List.take_sublist _ _).subset hr)]; exact hw)
  have e2 : (npSlice 0 (patch_size : ℤ) img).map
        (npSlice ((width img : ℤ) - patch_size) (width img)) =
      (img.take 40).map (fun r => (r.drop (width img - 40)).take 40) := by
    rw [npSlice_ps_start img hh]
    apply List.map_congr_left
    intro r hr
    exact npSlice_ps_end (width img) r (hR r ((List.take_sublist _ _).subset hr)) hw
  have e3 : (npSlice ((img.length : ℤ) - patch_size) img.length img).map
        (npSlice 0 (patch_size : ℤ)) =
      ((img.drop (img.length - 40)).take 40).map (fun r => r.take 40) := by
    rw [npSlice_ps_end img.length img rfl hh]
    apply List.map_congr_left
    intro r hr
    exact npSlice_ps_start r (by rw [hR r (mem_of_mem_drop_take hr)]; exact hw)
  have e4 : (npSlice ((img.length : ℤ) - patch_size) img.length img).map
        (npSlice ((width img : ℤ) - patch_size) (width img)) =
      ((img.drop (img.length - 40)).take 40).map
        (fun r => (r.drop (width img - 40)).take 40) := by
    rw [npSlice_ps_end img.length img rfl hh]
    apply List.map_congr_left
    intro r hr
    exact npSlice_ps_end (width img) r (hR r (mem_of_mem_drop_take hr)) hw
  have e5 : (npSlice ((img.length / 2 : ℕ) - (patch_size / 2 : ℕ) : ℤ)
        ((img.length / 2 : ℕ) + (patch_size / 2 : ℕ) : ℤ) img).map
        (npSlice 0 (patch_size : ℤ)) =
      ((img.drop (img.length / 2 - 20)).take 40).map (fun r => r.take 40) := by
    rw [npSlice_ps_mid img.length img rfl hh]
    apply List.map_congr_left
    intro r hr
    exact npSlice_ps_start r (by rw [hR r (mem_of_mem_drop_take hr)]; exact hw)
  have e6 : (npSlice ((img.length / 2 : ℕ) - (patch_size / 2 : ℕ) : ℤ)
        ((img.length / 2 : ℕ) + (patch_size / 2 : ℕ) : ℤ) img).map
        (npSlice ((width img : ℤ) - patch_size) (width img)) =
      ((img.drop (img.length / 2 - 20)).take 40).map
        (fun r => (r.drop (width img - 40)).take 40) := by
    rw [npSlice_ps_mid img.length img rfl hh]
    apply List.map_congr_left
    intro r hr
    exact npSlice_ps_end (width img) r (hR r (mem_of_mem_drop_take hr)) hw
  have e7 : (npSlice 0 (patch_size : ℤ) img).map
        (npSlice ((width img / 2 : ℕ) - (patch_size / 2 : ℕ) : ℤ)
          ((width img / 2 : ℕ) + (patch_size / 2 : ℕ) : ℤ)) =
      (img.take 40).map (fun r => (r.drop (width img / 2 - 20)).take 40) := by
    rw [npSlice_ps_start img hh]
    apply List.map_congr_left
    intro r hr
    exact npSlice_ps_mid (width img) r (hR r ((List.take_sublist _ _).subset hr)) hw
  have e8 : (npSlice ((img.length : ℤ) - patch_size) img.length img).map
        (npSlice ((width img / 2 : ℕ) - (patch_size / 2 : ℕ) : ℤ)
          ((width img / 2 : ℕ) + (patch_size / 2 : ℕ) : ℤ)) =
      ((img.drop (img.length - 40)).take 40).map
        (fun r => (r.drop (width img / 2 - 20)).take 40) := by
    rw [npSlice_ps_end img.length img rfl hh]
    apply List.map_congr_left
    intro r hr
    exact npSlice_ps_mid (width img) r (hR r (mem_of_mem_drop_take hr)) hw
  have hp : patches img = specPatches img := by
    unfold patches specPatches npSlice2
    rw [e1, e2, e3, e4, e5, e6, e7, e8]
  exact ⟨hp, by unfold noise_level; rw [hp]⟩

/-- Witness for C3 at the concrete image `constImg 40 40 0`. -/
theorem noise_level_patches_spec_witness :
    Rect (constImg 40 40 (0 : ℚ)) ∧ 40 ≤ (constImg 40 40 (0 : ℚ)).length ∧
    40 ≤ width (constImg 40 40 (0 : ℚ)) ∧
    (patches (constImg 40 40 0) = specPatches (constImg 40 40 0) ∧
      noise_level (constImg 40 40 0) =
        ((specPatches (constImg 40 40 0)).map npStd).sum / 8) := by
  have hR : Rect (constImg 40 40 (0 : ℚ)) := by
    intro r hr
    rw [List.eq_of_mem_replicate hr]
    decide
  exact ⟨hR, by decide, by decide,
    noise_level_patches_spec (constImg 40 40 0) hR (by decide) (by decide)⟩

theorem dims_clip255 (img : Img) : dims (clip255 img) = dims img := by
  unfold dims clip255
  rw [List.map_map]
  apply List.map_congr_left
  intro r _
  simp [Function.comp]

theorem dims_addWeighted {a b : Img} (h : dims a = dims b) (al be ga : ℚ) :
    dims (addWeighted a al b be ga) = dims a := by
  unfold dims at h ⊢
  unfold addWeighted
  induction a generalizing b with
  | nil => simp
  | cons ra as ih =>
    cases b with
    | nil => simp at h
    | cons rb bs =>
      simp only [List.map_cons, List.cons.injEq] at h
      simp only [List.zipWith_cons_cons, List.map_cons, List.cons.injEq]
      exact ⟨by rw [List.length_zipWith, ← h.1, min_self], ih h.2⟩

theorem length_eq_of_dims {a b : Img} (h : dims a = dims b) : a.length = b.length := by
  have h2 := congrArg List.length h
  simpa [dims] using h2

theorem width_eq_of_dims {a b : Img} (h : dims a = dims b) : width a = width b := by
  unfold dims at h
  unfold width
  cases a with
  | nil =>
    cases b with
    | nil => rfl
    | cons rb bs => simp at h
  | cons ra as =>
    cases b with
    | nil => simp at h
    | cons rb bs =>
      simp only [List.map_cons, List.cons.injEq] at h
      simpa using h.1

/-- C8: for every image with `height ≥ 40` and `width ≥ 40`, whenever the
pipeline succeeds (and the external filter primitives preserve image
shape, their contract), the enhanced output has exactly the input's height
and width. -/
theorem output_dims (F : Filters)
    (hc : ∀ q t i, dims (F.clahe q t i) = dims i)
    (hb : ∀ d sc ss i, dims (F.bilateral d sc ss i) = dims i)
    (hn : ∀ s tw sw i, dims (F.nlm s tw sw i) = dims i)
    (hg : ∀ k s i, dims (F.gaussianBlur k s i) = dims i)
    (img : Img) (hh : 40 ≤ img.length) (hw : 40 ≤ width img) (out : Img)
    (hout : adaptive_preprocessing F img = some out) :
    out.length = img.length ∧ width out = width img := by
  have hcond : ¬(img.length = 0 ∨ width img = 0) := by
    push_neg
    exact ⟨by omega, by omega⟩
  simp only [adaptive_preprocessing, if_neg hcond] at hout
  have hd : dims out = dims img := by
    rw [← Option.some.inj hout,
      dims_addWeighted (hg (5, 5) (6 / 5) _).symm, hn, hb, hc, dims_clip255]
  exact ⟨length_eq_of_dims hd, width_eq_of_dims hd⟩

/-- Witness for C8: the trivial filters on `c40` yield `demoOut`, of the
same 40×40 shape. -/
theorem output_dims_witness :
    40 ≤ c40.length ∧ 40 ≤ width c40 ∧
    adaptive_preprocessing idFilters c40 = some demoOut ∧
    demoOut.length = c40.length ∧ width demoOut = width c40 := by
  have h := output_dims idFilters (fun _ _ _ => rfl) (fun _ _ _ _ => rfl)
    (fun _ _ _ _ => rfl) (fun _ _ _ => rfl) c40 (by decide) (by decide) demoOut rfl
  exact ⟨by decide, by decide, rfl, h.1, h.2⟩

/-- C9: batch processing is per-file: the batch over `as ++ b :: cs` is the
batch over `as`, then `b`'s own outcome, then the batch over `cs` — no
file's failure aborts the rest — and any file that is present, decodes, is
preprocessed and written successfully contributes its written output to the
batch, whatever the other files do. -/
theorem batch_isolation (E : Env) (F : Filters) (as cs : List String) (b f : String)
    (img r : Img) (hmem : f ∈ as ++ b :: cs) (hfound : E.found f = true)
    (hdec : E.decode f = some img) (hpre : adaptive_preprocessing F img = some r)
    (hwr : E.writeOk (E.outPath f) r = true) :
    runBatch E F (as ++ b :: cs) =
      runBatch E F as ++ (b, batchStep E F b) :: runBatch E F cs ∧
    (f, some (FileOutcome.written (E.outPath f) r)) ∈ runBatch E F (as ++ b :: cs) := by
  constructor
  · unfold runBatch
    rw [List.map_append, List.map_cons]
  · unfold runBatch
    refine List.mem_map.mpr ⟨f, hmem, ?_⟩
    simp [batchStep, process_file, hfound, hdec, hpre, hwr]

/-- Witness for C9: a three-file batch whose first two entries are the
malformed `bad.dcm`; the valid `good.dcm` still produces its output. -/
theorem batch_isolation_witness :
    "good.dcm" ∈ ["bad.dcm"] ++ "bad.dcm" :: ["good.dcm"] ∧
    envDemo.found "good.dcm" = true ∧
    envDemo.decode "good.dcm" = some (constImg 1 1 0) ∧
    adaptive_preprocessing idFilters (constImg 1 1 0) = some demoOut1 ∧
    envDemo.writeOk (envDemo.outPath "good.dcm") demoOut1 = true ∧
    (runBatch envDemo idFilters (["bad.dcm"] ++ "bad.dcm" :: ["good.dcm"]) =
        runBatch envDemo idFilters ["bad.dcm"] ++
          ("bad.dcm", batchStep envDemo idFilters "bad.dcm") ::
            runBatch envDemo idFilters ["good.dcm"] ∧
      ("good.dcm", some (FileOutcome.written (envDemo.outPath "good.dcm") demoOut1)) ∈
        runBatch envDemo idFilters (["bad.dcm"] ++ "bad.dcm" :: ["good.dcm"])) :=
  ⟨by decide, by decide, by decide, rfl, by decide,
    batch_isolation envDemo idFilters ["bad.dcm"] ["good.dcm"] "bad.dcm" "good.dcm"
      (constImg 1 1 0) demoOut1 (by decide) (by decide) (by decide) rfl (by decide)⟩

/-- C10: if decoding yields no image, or adaptive preprocessing yields no
result, `process_file` attempts no output write for that file. -/
theorem no_write_on_failure (E : Env) (F : Filters) (p : String)
    (h : E.decode p = none ∨
      ∃ img, E.decode p = some img ∧ adaptive_preprocessing F img = none) :
    attemptsWrite (process_file E F p) = false := by
  rcases h with h | ⟨img, h1, h2⟩
  · simp [process_file, h, attemptsWrite]
  · simp [process_file, h1, h2, attemptsWrite]

/-- Witness for C10 at the malformed file `bad.dcm` of `envDemo`. -/
theorem no_write_on_failure_witness :
    (envDemo.decode "bad.dcm" = none ∨
      ∃ img, envDemo.decode "bad.dcm" = some img ∧
        adaptive_preprocessing idFilters img = none) ∧
    attemptsWrite (process_file envDemo idFilters "bad.dcm") = false :=
  ⟨Or.inl (by decide),
    no_write_on_failure envDemo idFilters "bad.dcm" (Or.inl (by decide))⟩

end AdaptivePipeline
